import Mathlib

/-!
Verification of the `@thaitype/shell` command-execution layer
(`src/shell.ts`), as a shallow embedding in Lean 4.

The embedding translates the two core layers of the source:
the Execution Core (`Shell.execute`, with `run` / `safeRun` wrappers)
and the Deferred Handle Layer (`Shell.createLazyHandle` / `asFluent`).
External collaborators (the `execa` process-spawning primitive, the
`string-argv` tokenizer, `JSON.parse`, and the standard-schema
validators) are modelled at their interface boundary: the spawn
collaborator as an oracle mapping a spawn request to a process
behaviour, the tokenizer and validators as function parameters.
Side effects (logger calls, spawn attempts) are made observable as an
explicit event trace returned alongside each outcome.
-/

deriving instance DecidableEq for Except

namespace ThaitypeShell

/-- Output mode behaviour for handling stdout/stderr, from `OutputMode`
in `shell.ts`: `capture` pipes both streams, `live` inherits both,
`all` pipes and inherits simultaneously. -/
inductive OutputMode where
  | capture
  | live
  | all
deriving DecidableEq, Repr

/-- Stdio wiring derived from an output mode (the `stdioMap` table in
`Shell.execute`): `'pipe'`, `'inherit'`, or `['pipe','inherit']`. -/
inductive StdioWiring where
  | pipe
  | inherit
  | pipeInherit
deriving DecidableEq, Repr

/-- The `stdioMap` table of `Shell.execute`: wiring used for both
stdout and stderr for a given output mode. -/
def stdioOf : OutputMode → StdioWiring
  | .capture => .pipe
  | .live => .inherit
  | .all => .pipeInherit

/-- Whether a mode captures output (streams are piped): true for
`capture` and `all`, false for `live`. -/
def OutputMode.captures : OutputMode → Bool
  | .capture => true
  | .live => false
  | .all => true

/-- Throw-mode from `ShellOptions.throwMode`: `simple` throws a short
synthesized message, `raw` rethrows the full `ExecaError`. -/
inductive ThrowMode where
  | simple
  | raw
deriving DecidableEq, Repr

/-- Environment maps are JS objects of string keys and string values,
modelled as ordered association lists (JS objects have unique keys). -/
abbrev EnvMap := List (String × String)

/-- First-match lookup in an association list, the semantics of JS
property access on the modelled objects. -/
def lookupKV : EnvMap → String → Option String
  | [], _ => none
  | (k', v) :: rest, k => if k' = k then some v else lookupKV rest k

/-- Key-by-key union of two JS objects as performed by the `deepmerge`
library's `mergeObject`: destination starts from the target's keys (a
key also present in the source takes the source's value), then the
source's remaining new keys are appended. -/
def mergeEnv (t s : EnvMap) : EnvMap :=
  (t.map fun p =>
    match lookupKV s p.1 with
    | some v => (p.1, v)
    | none => p)
  ++ s.filter fun q => (lookupKV t q.1).isNone

/-- The `ShellExecaOptions` overlay passed through to `execa`: the
fields exercised by the specification (nested `env` map, scalar
`timeout`), plus `reject`, which the type system is supposed to omit
but which a caller can still supply at runtime (tested in the repo's
suite). A field holds `none` when the JS object has no such key. -/
structure ShellExecaOpts where
  env : Option EnvMap := none
  timeout : Option Int := none
  reject : Option Bool := none
deriving DecidableEq, Repr

/-- Deep merge of shell-level and command-level execa options
(`deepmerge(this.execaOptions, commandExecaOptions)`): the nested
`env` object is unioned key-by-key with the command level winning,
scalar fields present at the command level override the shell level,
absent command-level fields leave the shell level in place. -/
def mergeShellExecaOpts (t s : ShellExecaOpts) : ShellExecaOpts :=
  { env :=
      match t.env, s.env with
      | some a, some b => some (mergeEnv a b)
      | some a, none => some a
      | none, some b => some b
      | none, none => none
    timeout := match s.timeout with | some x => some x | none => t.timeout
    reject := match s.reject with | some x => some x | none => t.reject }

/-- The fully resolved options object handed to `execa`
(`finalExecaOptions` in `Shell.execute`): stdio wiring from the
resolved output mode, the `reject` flag, and the deep-merged execa
options. The merged options are spread after the derived `reject`
entry, so a merged `reject` key overrides the derived one. -/
structure FinalExecaOptions where
  stdout : StdioWiring
  stderr : StdioWiring
  reject : Bool
  env : Option EnvMap
  timeout : Option Int
deriving DecidableEq, Repr

/-- Configuration state of one `Shell` instance after its constructor
applied the documented defaults. -/
structure ShellConfig where
  outputMode : OutputMode := .capture
  dryRun : Bool := false
  verbose : Bool := false
  throwMode : ThrowMode := .simple
  execaOptions : ShellExecaOpts := {}
deriving DecidableEq, Repr

/-- Constructor inputs (`ShellOptions`): every field optional, `none`
meaning the key was not supplied. -/
structure ShellOptionsIn where
  outputMode : Option OutputMode := none
  dryRun : Option Bool := none
  verbose : Option Bool := none
  throwMode : Option ThrowMode := none
  execaOptions : Option ShellExecaOpts := none
deriving Repr

/-- The `Shell` constructor: applies the defaults
`capture` / `false` / `false` / `simple` / `{}`. -/
def ShellConfig.new (o : ShellOptionsIn) : ShellConfig :=
  { outputMode := o.outputMode.getD .capture
    dryRun := o.dryRun.getD false
    verbose := o.verbose.getD false
    throwMode := o.throwMode.getD .simple
    execaOptions := o.execaOptions.getD {} }

/-- Per-call options (`RunOptions` plus the internal `throwOnError`
flag): the overridable trio, the execa overlay gathered by the rest
spread, and the throw flag set by `run` / `safeRun`. -/
structure RunOpts where
  outputMode : Option OutputMode := none
  verbose : Option Bool := none
  dryRun : Option Bool := none
  execaOpts : ShellExecaOpts := {}
  throwOnError : Option Bool := none
deriving DecidableEq, Repr

/-- A command argument, as accepted by `execute`: a raw shell-style
string (tokenized by the `string-argv` collaborator) or an explicit
argv array used verbatim. -/
inductive Cmd where
  | str (s : String)
  | argv (l : List String)
deriving DecidableEq, Repr

/-- Resolution of a command to its argv list
(`Array.isArray(cmd) ? cmd : parseArgsStringToArgv(cmd)`),
parameterized by the tokenization collaborator. -/
def argsOf (tokenize : String → List String) : Cmd → List String
  | .str s => tokenize s
  | .argv l => l

/-- The behaviour of one spawn attempt, the interface boundary of the
`execa` collaborator: the process runs to completion with an exit code
and stream contents, or never starts (e.g. command not found), or
`execa` fails with a non-`ExecaError` foreign error. -/
inductive ProcBehavior where
  | exits (exitCode : Int) (stdout stderr : String)
  | spawnFail (msg : String)
  | foreignError (msg : String)
deriving DecidableEq, Repr

/-- The spawn collaborator: what the process behind a given spawn
request does. -/
abbrev SpawnOracle := String → List String → FinalExecaOptions → ProcBehavior

/-- The resolved value of an `execa` call: captured streams (absent
when not piped or when the process never produced them) and the exit
code (absent when the process never started). -/
structure ExecaResult where
  stdout : Option String
  stderr : Option String
  exitCode : Option Int
deriving DecidableEq, Repr

/-- A thrown JS error: a plain `Error` with a message, a structured
`ExecaError` carrying the failed call's fields, or a foreign
non-`ExecaError` value. -/
inductive JsError where
  | errMsg (msg : String)
  | execaErr (e : ExecaResult)
  | other (msg : String)
deriving DecidableEq, Repr

/-- Semantics of the `execa` collaborator at its documented boundary:
with `reject` set, a nonzero exit or a spawn-level failure rejects
with a structured `ExecaError`; with `reject` unset it resolves with
the failure information in the result; streams are captured exactly
when the wiring pipes them. -/
def runExeca (b : ProcBehavior) (capture : Bool) (reject : Bool) :
    Except JsError ExecaResult :=
  match b with
  | .exits c out err =>
    let so := if capture then some out else none
    let se := if capture then some err else none
    if c ≠ 0 ∧ reject then .error (.execaErr ⟨so, se, some c⟩)
    else .ok ⟨so, se, some c⟩
  | .spawnFail _ =>
    if reject then .error (.execaErr ⟨none, none, none⟩)
    else .ok ⟨none, none, none⟩
  | .foreignError m => .error (.other m)

/-- The normalized outcome shape returned by `execute`
(`SafeResult` at runtime): captured text or null, exit code or
undefined, and the success flag. -/
structure ExecResult where
  stdout : Option String
  stderr : Option String
  exitCode : Option Int
  success : Bool
deriving DecidableEq, Repr

/-- Stream normalization performed by `execute`'s success branch,
`result.stdout ? String(result.stdout) : null`: an absent stream stays
null and — because the empty string is falsy in JS — empty captured
text is coerced to null as well. -/
def normalizeStream : Option String → Option String
  | some s => if s = "" then none else some s
  | none => none

/-- Rendering of a possibly-undefined exit code inside a JS template
literal (`${error.exitCode}`). -/
def showOptInt : Option Int → String
  | some n => toString n
  | none => "undefined"

/-- Reconstructed command text, `args.join(' ')`. -/
def joinSpace (args : List String) : String := String.intercalate " " args

/-- The synthesized human-readable failure message of `simple` throw
mode: ``Command failed: <args>\nExit code: <code>\n<stderr>``. -/
def simpleErrMsg (args : List String) (ec : Option Int) (st : String) : String :=
  "Command failed: " ++ joinSpace args ++ "\nExit code: " ++ showOptInt ec ++ "\n" ++ st

/-- Observable side effects of one invocation: a logger `debug` line,
a spawn attempt handed to the `execa` collaborator, or an invocation
of the Execution Core by the deferred layer's `start()`. -/
inductive Event where
  | logged (msg : String)
  | spawned (program : String) (args : List String) (opts : FinalExecaOptions)
  | coreInvoked
deriving DecidableEq, Repr

/-- Number of spawn attempts in a trace. -/
def countSpawn (tr : List Event) : Nat :=
  tr.countP fun e => match e with | .spawned _ _ _ => true | _ => false

/-- Number of logger `debug` lines in a trace. -/
def countLogged (tr : List Event) : Nat :=
  tr.countP fun e => match e with | .logged _ => true | _ => false

/-- Number of Execution Core invocations in a trace. -/
def countCore (tr : List Event) : Nat :=
  tr.countP fun e => match e with | .coreInvoked => true | _ => false

/-- The Execution Core, `Shell.execute`: resolves the argv, fails fast
on an empty program name, merges options, logs when verbose or
dry-running, short-circuits dry runs, and otherwise drives the spawn
collaborator and classifies the outcome. Returns the resolved value or
thrown error together with the trace of observable effects. -/
def execute (tokenize : String → List String) (spawnB : SpawnOracle)
    (sh : ShellConfig) (cmd : Cmd) (opts : RunOpts) :
    Except JsError ExecResult × List Event :=
  let args := argsOf tokenize cmd
  match args with
  | [] => (.error (.errMsg "No command provided."), [])
  | program :: cmdArgs =>
    if program = "" then (.error (.errMsg "No command provided."), [])
    else
      let outputMode := opts.outputMode.getD sh.outputMode
      let verbose := opts.verbose.getD sh.verbose
      let dryRun := opts.dryRun.getD sh.dryRun
      let merged := mergeShellExecaOpts sh.execaOptions opts.execaOpts
      let finalOpts : FinalExecaOptions :=
        { stdout := stdioOf outputMode
          stderr := stdioOf outputMode
          reject := merged.reject.getD (opts.throwOnError.getD true)
          env := merged.env
          timeout := merged.timeout }
      let logEvents :=
        if verbose || dryRun then [Event.logged ("$ " ++ joinSpace args)] else []
      if dryRun then
        (.ok { stdout := some "", stderr := some "", exitCode := some 0, success := true },
         logEvents)
      else
        let ev := Event.spawned program cmdArgs finalOpts
        let outcome : Except JsError ExecResult :=
          match runExeca (spawnB program cmdArgs finalOpts) outputMode.captures
              finalOpts.reject with
          | .ok r =>
            .ok { stdout := normalizeStream r.stdout
                  stderr := normalizeStream r.stderr
                  exitCode := r.exitCode
                  success := r.exitCode == some 0 }
          | .error (.execaErr e) =>
            if opts.throwOnError.getD false then
              if sh.throwMode = .raw then .error (.execaErr e)
              else .error (.errMsg (simpleErrMsg args e.exitCode (e.stderr.getD "")))
            else
              .ok { stdout := none, stderr := none, exitCode := none, success := false }
          | .error e => .error e
        (outcome, logEvents ++ [ev])

/-- `Shell.run`: `execute` with `throwOnError: true` spread last. -/
def run (tokenize : String → List String) (spawnB : SpawnOracle)
    (sh : ShellConfig) (cmd : Cmd) (opts : RunOpts) :
    Except JsError ExecResult × List Event :=
  execute tokenize spawnB sh cmd { opts with throwOnError := some true }

/-- `Shell.safeRun`: `execute` with `throwOnError: false` spread last. -/
def safeRun (tokenize : String → List String) (spawnB : SpawnOracle)
    (sh : ShellConfig) (cmd : Cmd) (opts : RunOpts) :
    Except JsError ExecResult × List Event :=
  execute tokenize spawnB sh cmd { opts with throwOnError := some false }

/-- Splitting loop of the witness tokenizer model. -/
def simpleTokenizeAux : List Char → List Char → List String
  | [], acc => if acc.isEmpty then [] else [String.mk acc.reverse]
  | ' ' :: rest, acc =>
    if acc.isEmpty then simpleTokenizeAux rest []
    else String.mk acc.reverse :: simpleTokenizeAux rest []
  | c :: rest, acc => simpleTokenizeAux rest (c :: acc)

/-- Minimal model of the `string-argv` tokenization collaborator used
to instantiate witnesses: splits on spaces and drops empty tokens (in
particular the empty command line tokenizes to the empty argv). -/
def simpleTokenize (s : String) : List String := simpleTokenizeAux s.data []

/-! ## Deferred Handle Layer (`Shell.createLazyHandle` / `asFluent`) -/

/-- The memoized execution value stored by the deferred handle's
`start()`: the `safeRun` outcome with `stdout` / `stderr` defaulted to
the empty string (`result.stdout ?? ''`). -/
structure ExecResultF where
  success : Bool
  stdout : String
  stderr : String
  exitCode : Option Int
deriving DecidableEq, Repr

/-- The mapping applied by `start()` to the resolved `safeRun` value. -/
def toF (r : ExecResult) : ExecResultF :=
  { success := r.success
    stdout := r.stdout.getD ""
    stderr := r.stderr.getD ""
    exitCode := r.exitCode }

/-- The outcome of one result of a schema-validating finalizer
(`ValidationResult` from `standard-schema.ts`): the validated value or
a list of issue messages. -/
inductive ValidationRes (V : Type) where
  | ok (v : V)
  | fail (messages : List String)
deriving DecidableEq, Repr

/-- The raw-throw-mode message of the deferred direct-observation path.
Because the underlying call used `safeRun`, the original `ExecaError`
is unavailable and the handle throws this simplified error instead
(`Command failed with exit code ...: ...`). -/
def rawModeMsg (ec : Option Int) (st : String) : String :=
  "Command failed with exit code " ++ showOptInt ec ++ ": " ++ st

/-- Line splitting of `stdout.split(/\r?\n/)`: a `\n`, optionally
preceded by a `\r`, separates lines; a lone `\r` is ordinary text. -/
def splitLinesAux : List Char → List Char → List String
  | [], acc => [String.mk acc.reverse]
  | '\r' :: '\n' :: rest, acc => String.mk acc.reverse :: splitLinesAux rest []
  | '\n' :: rest, acc => String.mk acc.reverse :: splitLinesAux rest []
  | c :: rest, acc => splitLinesAux rest (c :: acc)

/-- Line splitting of a string on `\r?\n`. -/
def splitLines (s : String) : List String := splitLinesAux s.data []

/-- The `toLines()` post-processing of captured stdout: empty stdout
short-circuits to the empty array (`if (!result.stdout) return []`),
otherwise the text is split on `\r?\n`. -/
def jsLines (s : String) : List String := if s = "" then [] else splitLines s

/-- Post-processing of the direct-observation finalizer (`handle.then`)
on the memoized outcome: stdout text on success; on failure a fresh
error whose shape follows the configured throw mode (`simple` uses the
eager layer's synthesized format, `raw` uses the locally simplified
message). A rejected memoized execution propagates. -/
def directOf (tm : ThrowMode) (args : List String) :
    Except JsError ExecResultF → Except JsError String
  | .error e => .error e
  | .ok r =>
    if r.success then .ok r.stdout
    else if tm = .simple then
      .error (.errMsg (simpleErrMsg args r.exitCode r.stderr))
    else
      .error (.errMsg (rawModeMsg r.exitCode r.stderr))

/-- Post-processing of `result()`: the memoized outcome verbatim. -/
def resultOf : Except JsError ExecResultF → Except JsError ExecResultF := id

/-- Post-processing of `toLines()`: line-split stdout on success, and
on failure the simple-format error (independently of the configured
throw mode). -/
def toLinesOf (args : List String) :
    Except JsError ExecResultF → Except JsError (List String)
  | .error e => .error e
  | .ok r =>
    if r.success then .ok (jsLines r.stdout)
    else .error (.errMsg (simpleErrMsg args r.exitCode r.stderr))

section Handle

variable {J V : Type}
variable (jsonParse : String → Except String J)
variable (svalidate : J → Except String V)
variable (ssafeValidate : J → ValidationRes V)

/-- Post-processing of `parse(schema)`: on success, `JSON.parse` of the
memoized stdout followed by the throwing form of the schema-validation
collaborator, both surfacing failures as thrown errors; on command
failure the simple-format error. -/
def parseOf (args : List String) :
    Except JsError ExecResultF → Except JsError V
  | .error e => .error e
  | .ok r =>
    if r.success then
      match jsonParse r.stdout with
      | .error m => .error (.errMsg m)
      | .ok j =>
        match svalidate j with
        | .error m => .error (.errMsg m)
        | .ok v => .ok v
    else .error (.errMsg (simpleErrMsg args r.exitCode r.stderr))

/-- Post-processing of `safeParse(schema)`: a tagged union, never
throwing on command failure, empty stdout, decode failure, or
validation failure — but a rejected memoized execution still
propagates. -/
def safeParseOf (args : List String) :
    Except JsError ExecResultF → Except JsError (ValidationRes V)
  | .error e => .error e
  | .ok r =>
    let commandStr := joinSpace args
    if !r.success then
      .ok (.fail [simpleErrMsg args r.exitCode r.stderr])
    else if r.stdout = "" then
      .ok (.fail ["The command produced no output to validate: " ++ commandStr])
    else
      match jsonParse r.stdout with
      | .ok j => .ok (ssafeValidate j)
      | .error m =>
        .ok (.fail ["Unable to parse JSON: " ++ m ++ "\nCommand: " ++ commandStr])

/-- A finalizer invocable on a deferred handle. -/
inductive Finalizer where
  | direct
  | result
  | toLines
  | parse
  | safeParse
deriving DecidableEq, Repr

/-- The observed outcome of one finalizer invocation. -/
inductive FinalizerOut (V : Type) where
  | text (r : Except JsError String)
  | res (r : Except JsError ExecResultF)
  | lines (r : Except JsError (List String))
  | parsed (r : Except JsError V)
  | safeParsed (r : Except JsError (ValidationRes V))
deriving DecidableEq, Repr

/-- Pure post-processing applied by each finalizer to the memoized
`start()` outcome. -/
def observe (tm : ThrowMode) (args : List String)
    (r : Except JsError ExecResultF) : Finalizer → FinalizerOut V
  | .direct => .text (directOf tm args r)
  | .result => .res (resultOf r)
  | .toLines => .lines (toLinesOf args r)
  | .parse => .parsed (parseOf jsonParse svalidate args r)
  | .safeParse => .safeParsed (safeParseOf jsonParse ssafeValidate args r)

variable (tokenize : String → List String) (spawnB : SpawnOracle)

/-- The execution slot of a deferred handle: empty until the first
finalizer runs, then holding the memoized `start()` outcome. -/
abbrev HandleState := Option (Except JsError ExecResultF)

/-- One population of the execution slot by `start()`: a single
Execution Core invocation, `this.safeRun(command, { outputMode:
'capture' })`, followed by the field-defaulting mapping. -/
def startResult (sh : ShellConfig) (cmd : Cmd) :
    Except JsError ExecResultF × List Event :=
  let (out, tr) :=
    safeRun tokenize spawnB sh cmd { outputMode := some .capture }
  (out.map toF, Event.coreInvoked :: tr)

/-- One finalizer invocation on a deferred handle: populates the
execution slot if it is empty (the sole memoization point), then
applies the finalizer's own post-processing to the shared outcome. -/
def stepFin (sh : ShellConfig) (cmd : Cmd) (st : HandleState)
    (f : Finalizer) : HandleState × FinalizerOut V × List Event :=
  match st with
  | some r => (some r, observe jsonParse svalidate ssafeValidate sh.throwMode
      (argsOf tokenize cmd) r f, [])
  | none =>
    let (r, tr) := startResult tokenize spawnB sh cmd
    (some r, observe jsonParse svalidate ssafeValidate sh.throwMode
      (argsOf tokenize cmd) r f, tr)

/-- A sequence of finalizer invocations on one handle, from a given
slot state, with the observed outcomes and the concatenated trace. -/
def runSeq (sh : ShellConfig) (cmd : Cmd) (st : HandleState) :
    List Finalizer → HandleState × List (FinalizerOut V) × List Event
  | [] => (st, [], [])
  | f :: fs =>
    let (st', out, tr) :=
      stepFin jsonParse svalidate ssafeValidate tokenize spawnB sh cmd st f
    let (st'', outs, trs) :=
      runSeq sh cmd st' fs
    (st'', out :: outs, tr ++ trs)

/-- The three call shapes accepted by the function returned from
`asFluent()`: a tagged template (literal fragments with already
stringified interpolated values), a command string, or an argv array. -/
inductive FluentArg where
  | template (parts : List String) (values : List String)
  | str (s : String)
  | argv (l : List String)
deriving Repr

/-- Interleaving loop of `processTaggedTemplate`:
`result += String(values[i]) + parts[i + 1]` for each value (reading
one past the parts produces JS `undefined`, impossible for a genuine
tagged-template call). -/
def interleaveTV : List String → List String → String
  | [], _ => ""
  | v :: vs, p :: ps => v ++ p ++ interleaveTV vs ps
  | v :: vs, [] => v ++ "undefined" ++ interleaveTV vs []

/-- `Shell.processTaggedTemplate`: fragments and stringified values
concatenated as-is, with no quoting or escaping. -/
def processTaggedTemplate (parts values : List String) : String :=
  match parts with
  | [] => "undefined" ++ interleaveTV values []
  | p :: ps => p ++ interleaveTV values ps

/-- The command handed to `createLazyHandle` by the dispatch inside
`asFluent()`. -/
def asFluentCommand : FluentArg → Cmd
  | .template parts values => .str (processTaggedTemplate parts values)
  | .str s => .str s
  | .argv l => .argv l

/-- A whole deferred-handle run: the handle is constructed with an
empty execution slot (spawning nothing) and then the given finalizer
sequence is invoked on it. -/
def deferredRun (sh : ShellConfig) (fa : FluentArg)
    (fs : List Finalizer) :
    HandleState × List (FinalizerOut V) × List Event :=
  runSeq jsonParse svalidate ssafeValidate tokenize spawnB sh
    (asFluentCommand fa) none fs

end Handle

/-! ## General lemmas -/

/-- Substring containment: `sub` occurs contiguously inside `s`. -/
def containsStr (s sub : String) : Prop :=
  ∃ pre post, s = pre ++ sub ++ post

theorem containsStr_of_parts (a b c : String) : containsStr (a ++ b ++ c) b :=
  ⟨a, c, rfl⟩

theorem lookupKV_append (a b : EnvMap) (k : String) :
    lookupKV (a ++ b) k =
      match lookupKV a k with
      | some v => some v
      | none => lookupKV b k := by
  induction a with
  | nil => simp [lookupKV]
  | cons p rest ih =>
    obtain ⟨k', v⟩ := p
    by_cases h : k' = k <;> simp [lookupKV, h, ih]

theorem lookupKV_mapOverride (s t : EnvMap) (k : String) :
    lookupKV
      (t.map fun p =>
        match lookupKV s p.1 with
        | some v => (p.1, v)
        | none => p) k =
      match lookupKV t k with
      | none => none
      | some v =>
        match lookupKV s k with
        | some w => some w
        | none => some v := by
  induction t with
  | nil => simp [lookupKV]
  | cons p rest ih =>
    obtain ⟨k', v'⟩ := p
    by_cases h : k' = k
    · subst h
      cases hs : lookupKV s k' <;> simp [lookupKV, hs]
    · cases hs : lookupKV s k' <;> simp [lookupKV, hs, h, ih]

theorem lookupKV_filterNone (t s : EnvMap) (k : String) :
    lookupKV (s.filter fun q => (lookupKV t q.1).isNone) k =
      if (lookupKV t k).isNone then lookupKV s k else none := by
  induction s with
  | nil => simp [lookupKV]
  | cons p rest ih =>
    obtain ⟨k', v'⟩ := p
    by_cases h : k' = k
    · subst h
      cases ht : lookupKV t k' <;>
        simp [List.filter, lookupKV, ht, ih]
    · cases hpred : (lookupKV t k').isNone <;>
        simp [List.filter, lookupKV, h, hpred, ih]

theorem lookupKV_mergeEnv (t s : EnvMap) (k : String) :
    lookupKV (mergeEnv t s) k =
      match lookupKV s k with
      | some v => some v
      | none => lookupKV t k := by
  unfold mergeEnv
  rw [lookupKV_append, lookupKV_mapOverride, lookupKV_filterNone]
  cases ht : lookupKV t k <;> cases hs : lookupKV s k <;> simp [ht, hs]

/-! ## Trace lemmas about the Execution Core -/

theorem countCore_execute (tokenize : String → List String)
    (spawnB : SpawnOracle) (sh : ShellConfig) (cmd : Cmd) (opts : RunOpts) :
    countCore (execute tokenize spawnB sh cmd opts).2 = 0 := by
  unfold execute
  cases argsOf tokenize cmd with
  | nil => simp [countCore]
  | cons p rest =>
    by_cases hp : p = ""
    · simp [hp, countCore]
    · simp [hp, countCore, List.countP_append, List.countP_cons, apply_ite]
      split <;> simp

theorem countSpawn_execute (tokenize : String → List String)
    (spawnB : SpawnOracle) (sh : ShellConfig) (cmd : Cmd) (opts : RunOpts)
    (p : String) (rest : List String)
    (hargs : argsOf tokenize cmd = p :: rest) (hp : p ≠ "")
    (hdry : opts.dryRun.getD sh.dryRun = false) :
    countSpawn (execute tokenize spawnB sh cmd opts).2 = 1 := by
  unfold execute
  rw [hargs]
  simp [hp, hdry, countSpawn, List.countP_append, List.countP_cons, apply_ite]
  split <;> simp [List.countP_cons]

theorem execute_trace_empty_of_noProgram (tokenize : String → List String)
    (spawnB : SpawnOracle) (sh : ShellConfig) (cmd : Cmd) (opts : RunOpts)
    (h : (argsOf tokenize cmd).headD "" = "") :
    execute tokenize spawnB sh cmd opts =
      (.error (.errMsg "No command provided."), []) := by
  unfold execute
  cases hargs : argsOf tokenize cmd with
  | nil => simp
  | cons p rest =>
    rw [hargs] at h
    simp only [List.headD_cons] at h
    simp [h]

/-! ## Lemmas about the deferred-handle layer -/

section HandleLemmas

variable {J V : Type}
variable (jsonParse : String → Except String J)
variable (svalidate : J → Except String V)
variable (ssafeValidate : J → ValidationRes V)
variable (tokenize : String → List String) (spawnB : SpawnOracle)

theorem stepFin_some (sh : ShellConfig) (cmd : Cmd)
    (r : Except JsError ExecResultF) (f : Finalizer) :
    stepFin jsonParse svalidate ssafeValidate tokenize spawnB sh cmd
      (some r) f =
    (some r, observe jsonParse svalidate ssafeValidate sh.throwMode
      (argsOf tokenize cmd) r f, []) := rfl

theorem stepFin_none (sh : ShellConfig) (cmd : Cmd) (f : Finalizer) :
    stepFin jsonParse svalidate ssafeValidate tokenize spawnB sh cmd
      none f =
    (some (startResult tokenize spawnB sh cmd).1,
     observe jsonParse svalidate ssafeValidate sh.throwMode
       (argsOf tokenize cmd) (startResult tokenize spawnB sh cmd).1 f,
     (startResult tokenize spawnB sh cmd).2) := rfl

theorem runSeq_some (sh : ShellConfig) (cmd : Cmd)
    (r : Except JsError ExecResultF) (fs : List Finalizer) :
    runSeq jsonParse svalidate ssafeValidate tokenize spawnB sh cmd
      (some r) fs =
    (some r,
     fs.map (observe jsonParse svalidate ssafeValidate sh.throwMode
       (argsOf tokenize cmd) r), []) := by
  induction fs with
  | nil => rfl
  | cons f fs ih => simp [runSeq, stepFin, ih]

theorem runSeq_none_cons (sh : ShellConfig) (cmd : Cmd)
    (f : Finalizer) (fs : List Finalizer) :
    runSeq jsonParse svalidate ssafeValidate tokenize spawnB sh cmd
      none (f :: fs) =
    (some (startResult tokenize spawnB sh cmd).1,
     (f :: fs).map (observe jsonParse svalidate ssafeValidate sh.throwMode
       (argsOf tokenize cmd) (startResult tokenize spawnB sh cmd).1),
     (startResult tokenize spawnB sh cmd).2) := by
  simp [runSeq, stepFin_none, runSeq_some]

theorem countCore_startResult (sh : ShellConfig) (cmd : Cmd) :
    countCore (startResult tokenize spawnB sh cmd).2 = 1 := by
  unfold startResult safeRun
  simp only [countCore, List.countP_cons]
  have h := countCore_execute tokenize spawnB sh cmd
    { outputMode := some .capture, throwOnError := some false }
  simp only [countCore] at h
  simp [h]

theorem countSpawn_startResult (sh : ShellConfig) (cmd : Cmd)
    (p : String) (rest : List String)
    (hargs : argsOf tokenize cmd = p :: rest) (hp : p ≠ "")
    (hdry : sh.dryRun = false) :
    countSpawn (startResult tokenize spawnB sh cmd).2 = 1 := by
  unfold startResult safeRun
  simp only [countSpawn, List.countP_cons]
  have h := countSpawn_execute tokenize spawnB sh cmd
    { outputMode := some .capture, throwOnError := some false } p rest hargs hp
    (by simpa using hdry)
  simp only [countSpawn] at h
  simp [h]

end HandleLemmas

theorem startResult_noProgram {tokenize : String → List String}
    {spawnB : SpawnOracle} {sh : ShellConfig} {cmd : Cmd}
    (h : (argsOf tokenize cmd).headD "" = "") :
    startResult tokenize spawnB sh cmd =
      (.error (.errMsg "No command provided."), [Event.coreInvoked]) := by
  unfold startResult safeRun
  rw [execute_trace_empty_of_noProgram _ _ _ _ _ h]
  rfl

/-! ## Concrete collaborator instances used by witnesses -/

/-- Trivial JSON-decode collaborator used by concrete witnesses. -/
def jpUnit : String → Except String Unit := fun _ => .error "no JSON"

/-- Trivial throwing schema-validation collaborator for witnesses. -/
def svUnit : Unit → Except String Unit := fun u => .ok u

/-- Trivial non-throwing schema-validation collaborator for witnesses. -/
def ssvUnit : Unit → ValidationRes Unit := fun u => .ok u

/-- A spawn collaborator whose process always exits with the given code
and stream contents. -/
def oracleExit (c : Int) (out err : String) : SpawnOracle :=
  fun _ _ _ => .exits c out err

/-! ## Claims -/

/-- C4: for every invocation — eager `execute`/`run`/`safeRun` or any
deferred finalizer — whose resolved argv has no program name (empty
command string tokenizing to an empty argv, or an empty argv list), the
call fails with the message "No command provided." before the spawn
collaborator is ever invoked, regardless of throw mode; the safe
no-throw paths also reject with this error rather than converting it
into a result value. -/
theorem claim_C4 {J V : Type} (jsonParse : String → Except String J)
    (svalidate : J → Except String V) (ssafeValidate : J → ValidationRes V)
    (tokenize : String → List String) (spawnB : SpawnOracle)
    (sh : ShellConfig) (cmd : Cmd) (opts : RunOpts)
    (h : (argsOf tokenize cmd).headD "" = "") :
    execute tokenize spawnB sh cmd opts =
      (.error (.errMsg "No command provided."), [])
    ∧ run tokenize spawnB sh cmd opts =
      (.error (.errMsg "No command provided."), [])
    ∧ safeRun tokenize spawnB sh cmd opts =
      (.error (.errMsg "No command provided."), [])
    ∧ (∀ fs : List Finalizer,
        countSpawn
          (runSeq jsonParse svalidate ssafeValidate tokenize spawnB sh cmd
            none fs).2.2 = 0
        ∧ (runSeq jsonParse svalidate ssafeValidate tokenize spawnB sh cmd
            none fs).2.1 =
          fs.map (observe jsonParse svalidate ssafeValidate sh.throwMode
            (argsOf tokenize cmd) (.error (.errMsg "No command provided."))))
    ∧ observe jsonParse svalidate ssafeValidate sh.throwMode
        (argsOf tokenize cmd) (.error (.errMsg "No command provided."))
        .result =
      .res (.error (.errMsg "No command provided."))
    ∧ observe jsonParse svalidate ssafeValidate sh.throwMode
        (argsOf tokenize cmd) (.error (.errMsg "No command provided."))
        .safeParse =
      .safeParsed (.error (.errMsg "No command provided.")) := by
  refine ⟨execute_trace_empty_of_noProgram _ _ _ _ _ h,
          execute_trace_empty_of_noProgram _ _ _ _ _ h,
          execute_trace_empty_of_noProgram _ _ _ _ _ h, ?_, rfl, rfl⟩
  intro fs
  cases fs with
  | nil => exact ⟨rfl, rfl⟩
  | cons f fs =>
    rw [runSeq_none_cons, startResult_noProgram h]
    exact ⟨rfl, rfl⟩

/-- Witness for C4 at a concrete input: the empty command string under
the model tokenizer, with a live spawn collaborator that would succeed
if it were ever reached. -/
theorem claim_C4_witness :
    (argsOf simpleTokenize (.str "")).headD "" = ""
    ∧ execute simpleTokenize (oracleExit 0 "hi" "") {} (.str "") {} =
        (.error (.errMsg "No command provided."), [])
    ∧ countSpawn
        (runSeq jpUnit svUnit ssvUnit simpleTokenize (oracleExit 0 "hi" "")
          {} (.str "") none [.result, .direct, .safeParse]).2.2 = 0 := by
  have h : (argsOf simpleTokenize (.str "")).headD "" = "" := by decide
  have main := claim_C4 jpUnit svUnit ssvUnit simpleTokenize
    (oracleExit 0 "hi" "") {} (.str "") {} h
  exact ⟨h, main.1, (main.2.2.2.1 [.result, .direct, .safeParse]).1⟩

/-- C5: for every non-empty command executed with `dryRun` resolved to
true, the spawn collaborator is never invoked and the call returns
exactly `{stdout:'', stderr:'', exitCode:0, success:true}`; whenever
`verbose` or `dryRun` resolves to true, exactly one diagnostic log
line containing the reconstructed command text is emitted, and it
comes before any spawn attempt in the trace. -/
theorem claim_C5 (tokenize : String → List String) (spawnB : SpawnOracle)
    (sh : ShellConfig) (cmd : Cmd) (opts : RunOpts)
    (p : String) (rest : List String)
    (hargs : argsOf tokenize cmd = p :: rest) (hp : p ≠ "") :
    (opts.dryRun.getD sh.dryRun = true →
      execute tokenize spawnB sh cmd opts =
        (.ok { stdout := some "", stderr := some "", exitCode := some 0,
               success := true },
         [Event.logged ("$ " ++ joinSpace (p :: rest))])
      ∧ countSpawn (execute tokenize spawnB sh cmd opts).2 = 0)
    ∧ ((opts.verbose.getD sh.verbose || opts.dryRun.getD sh.dryRun) = true →
      (execute tokenize spawnB sh cmd opts).2.head? =
        some (.logged ("$ " ++ joinSpace (p :: rest)))
      ∧ countLogged (execute tokenize spawnB sh cmd opts).2 = 1
      ∧ containsStr ("$ " ++ joinSpace (p :: rest)) (joinSpace (p :: rest))) := by
  constructor
  · intro hdry
    unfold execute
    rw [hargs]
    simp [hp, hdry, countSpawn]
  · intro hvd
    refine ⟨?_, ?_, ⟨"$ ", "", by simp⟩⟩
    · unfold execute
      rw [hargs]
      by_cases hdry : opts.dryRun.getD sh.dryRun = true
      · simp [hp, hdry]
      · simp [hdry] at hvd
        simp [hp, hdry, hvd]
    · unfold execute
      rw [hargs]
      by_cases hdry : opts.dryRun.getD sh.dryRun = true
      · simp [hp, hdry, countLogged, List.countP_cons]
      · simp [hdry] at hvd
        simp [hp, hdry, hvd, countLogged, List.countP_append, List.countP_cons]

/-- Witness for C5: a dry-run shell over a command that would exit 9
if it were ever spawned. -/
theorem claim_C5_witness :
    (ShellConfig.new { dryRun := some true }).dryRun = true
    ∧ execute simpleTokenize (oracleExit 9 "x" "y")
        (ShellConfig.new { dryRun := some true }) (.str "echo hi") {} =
      (.ok { stdout := some "", stderr := some "", exitCode := some 0,
             success := true },
       [Event.logged "$ echo hi"])
    ∧ countLogged (execute simpleTokenize (oracleExit 9 "x" "y")
        (ShellConfig.new { dryRun := some true }) (.str "echo hi") {}).2 = 1 := by
  have hargs : argsOf simpleTokenize (.str "echo hi") = ["echo", "hi"] := by decide
  have main := claim_C5 simpleTokenize (oracleExit 9 "x" "y")
    (ShellConfig.new { dryRun := some true }) (.str "echo hi") {}
    "echo" ["hi"] hargs (by decide)
  refine ⟨rfl, ?_, ?_⟩
  · have := (main.1 rfl).1
    simpa using this
  · exact (main.2 rfl).2.1

/-- C3 (counterexample): the claim states that an empty captured stream
is preserved as the empty string. At a successful spawn in capture mode
whose stdout is the empty string, `execute` in fact returns
`stdout: null` (the JS falsy check `result.stdout ? ... : null` coerces
`''` to `null`), not `stdout: ''`. -/
theorem claim_C3_counterexample :
    (execute simpleTokenize (oracleExit 0 "" "x") {} (.argv ["true"])
      { throwOnError := some true }).1 =
      .ok { stdout := none, stderr := some "x", exitCode := some 0,
            success := true }
    ∧ ({ stdout := none, stderr := some "x", exitCode := some 0,
         success := true } : ExecResult) ≠
      { stdout := some "", stderr := some "x", exitCode := some 0,
        success := true } := ⟨rfl, by decide⟩

/-- C3 (amended): for every successful spawn, `execute` returns
captured stdout/stderr only when the stream was captured (mode
`capture` or `all`) and its text is non-empty; an empty captured
stream, like an uncaptured one, yields null. Non-empty captured text
is preserved verbatim. -/
theorem claim_C3_amended (tokenize : String → List String)
    (sh : ShellConfig) (cmd : Cmd) (opts : RunOpts)
    (p : String) (rest : List String) (out err : String)
    (hargs : argsOf tokenize cmd = p :: rest) (hp : p ≠ "")
    (hdry : opts.dryRun.getD sh.dryRun = false) :
    (execute tokenize (oracleExit 0 out err) sh cmd opts).1 =
      .ok { stdout :=
              if (opts.outputMode.getD sh.outputMode).captures then
                (if out = "" then none else some out)
              else none
            stderr :=
              if (opts.outputMode.getD sh.outputMode).captures then
                (if err = "" then none else some err)
              else none
            exitCode := some 0
            success := true } := by
  unfold execute
  rw [hargs]
  cases hcap : (opts.outputMode.getD sh.outputMode).captures <;>
    simp [hp, hdry, runExeca, oracleExit, normalizeStream, hcap]

/-- Witness for C3 (amended) in capture mode with non-empty stdout and
empty stderr. -/
theorem claim_C3_amended_witness :
    (execute simpleTokenize (oracleExit 0 "a" "") {} (.argv ["p"]) {}).1 =
      .ok { stdout := some "a", stderr := none, exitCode := some 0,
            success := true } := by
  have main := claim_C3_amended simpleTokenize {} (.argv ["p"]) {} "p" [] "a" ""
    rfl (by decide) rfl
  simpa using main

/-- C2 (counterexample): the claim states that a deferred-layer command
whose resolved output mode is `live` raises a `ConfigurationError`
before any execution-slot population, so that no process is spawned.
With an enclosing instance whose default mode is `live`, a deferred
handle in fact runs to completion without any error and performs one
spawn (in forced capture wiring). -/
theorem claim_C2_counterexample :
    (ShellConfig.new { outputMode := some .live }).outputMode = .live
    ∧ deferredRun jpUnit svUnit ssvUnit simpleTokenize (oracleExit 0 "hi" "")
        (ShellConfig.new { outputMode := some .live })
        (.argv ["echo", "hi"]) [.direct] =
      (some (.ok { success := true, stdout := "hi", stderr := "",
                   exitCode := some 0 }),
       [.text (.ok "hi")],
       [Event.coreInvoked,
        Event.spawned "echo" ["hi"]
          { stdout := .pipe, stderr := .pipe, reject := false,
            env := none, timeout := none }])
    ∧ countSpawn
        [Event.coreInvoked,
         Event.spawned "echo" ["hi"]
           { stdout := .pipe, stderr := .pipe, reject := false,
             env := none, timeout := none }] = 1 := ⟨rfl, rfl, by decide⟩

/-- Check that every spawn attempt in a trace uses pipe wiring on both
streams (capture mode). -/
def allSpawnsPipe (tr : List Event) : Bool :=
  tr.all fun e =>
    match e with
    | .spawned _ _ o => o.stdout == .pipe && o.stderr == .pipe
    | _ => true

theorem startResult_outputMode_invariant (tokenize : String → List String)
    (spawnB : SpawnOracle) (sh : ShellConfig) (cmd : Cmd) (m : OutputMode) :
    startResult tokenize spawnB { sh with outputMode := m } cmd =
      startResult tokenize spawnB sh cmd := rfl

theorem allSpawnsPipe_startResult (tokenize : String → List String)
    (spawnB : SpawnOracle) (sh : ShellConfig) (cmd : Cmd) :
    allSpawnsPipe (startResult tokenize spawnB sh cmd).2 = true := by
  unfold startResult safeRun execute
  cases argsOf tokenize cmd with
  | nil => rfl
  | cons p rest =>
    by_cases hp : p = ""
    · simp [hp, allSpawnsPipe]
    · by_cases hv : sh.verbose = true <;> by_cases hd : sh.dryRun = true <;>
        simp [hp, hv, hd, allSpawnsPipe, stdioOf]

/-- C2 (amended): the deferred layer does not validate the output mode
at all. `createLazyHandle` passes `outputMode: 'capture'` to its one
underlying `safeRun`, so every handle behaves identically whatever the
enclosing instance's output mode is — a `live` default is silently
overridden rather than rejected — and every spawn the deferred layer
performs uses capture (pipe) wiring. -/
theorem claim_C2_amended {J V : Type} (jsonParse : String → Except String J)
    (svalidate : J → Except String V) (ssafeValidate : J → ValidationRes V)
    (tokenize : String → List String) (spawnB : SpawnOracle)
    (sh : ShellConfig) (m : OutputMode) (fa : FluentArg)
    (fs : List Finalizer) :
    deferredRun jsonParse svalidate ssafeValidate tokenize spawnB
      { sh with outputMode := m } fa fs =
      deferredRun jsonParse svalidate ssafeValidate tokenize spawnB sh fa fs
    ∧ allSpawnsPipe
        (deferredRun jsonParse svalidate ssafeValidate tokenize spawnB sh
          fa fs).2.2 = true := by
  constructor
  · cases fs with
    | nil => rfl
    | cons f fs =>
      unfold deferredRun
      rw [runSeq_none_cons, runSeq_none_cons, startResult_outputMode_invariant]
  · cases fs with
    | nil => rfl
    | cons f fs =>
      unfold deferredRun
      rw [runSeq_none_cons]
      exact allSpawnsPipe_startResult tokenize spawnB sh (asFluentCommand fa)

/-- C1: a deferred handle created via `asFluent()` — from a tagged
template, a command string, or an argv array — spawns nothing at
construction (running no finalizer leaves the slot empty with an empty
trace); across every combination and order of finalizer invocations
the Execution Core is invoked exactly once, and for a real run (non-
empty program, no dry-run) the spawn attempt count is exactly one;
every finalizer observes the single memoized outcome, and on success
the text produced by direct await equals `result().stdout` while
`toLines()` is exactly that text split on line endings. -/
theorem claim_C1 {J V : Type} (jsonParse : String → Except String J)
    (svalidate : J → Except String V) (ssafeValidate : J → ValidationRes V)
    (tokenize : String → List String) (spawnB : SpawnOracle)
    (sh : ShellConfig) (fa : FluentArg) (fs : List Finalizer)
    (hfs : fs ≠ []) :
    deferredRun jsonParse svalidate ssafeValidate tokenize spawnB sh fa [] =
      (none, [], [])
    ∧ countCore
        (deferredRun jsonParse svalidate ssafeValidate tokenize spawnB sh fa
          fs).2.2 = 1
    ∧ (deferredRun jsonParse svalidate ssafeValidate tokenize spawnB sh fa
        fs).2.1 =
      fs.map (observe jsonParse svalidate ssafeValidate sh.throwMode
        (argsOf tokenize (asFluentCommand fa))
        (startResult tokenize spawnB sh (asFluentCommand fa)).1)
    ∧ (sh.dryRun = false →
       (argsOf tokenize (asFluentCommand fa)).headD "" ≠ "" →
       countSpawn
         (deferredRun jsonParse svalidate ssafeValidate tokenize spawnB sh fa
           fs).2.2 = 1)
    ∧ (∀ r : ExecResultF,
        (startResult tokenize spawnB sh (asFluentCommand fa)).1 = .ok r →
        r.success = true →
        directOf sh.throwMode (argsOf tokenize (asFluentCommand fa)) (.ok r) =
          .ok r.stdout
        ∧ resultOf (.ok r) = .ok r
        ∧ toLinesOf (argsOf tokenize (asFluentCommand fa)) (.ok r) =
          .ok (jsLines r.stdout)) := by
  cases fs with
  | nil => exact absurd rfl hfs
  | cons f fs =>
    refine ⟨rfl, ?_, ?_, ?_, ?_⟩
    · unfold deferredRun
      rw [runSeq_none_cons]
      exact countCore_startResult tokenize spawnB sh (asFluentCommand fa)
    · unfold deferredRun
      rw [runSeq_none_cons]
    · intro hdry hhead
      unfold deferredRun
      rw [runSeq_none_cons]
      cases hargs : argsOf tokenize (asFluentCommand fa) with
      | nil => rw [hargs] at hhead; exact absurd rfl hhead
      | cons p rest =>
        rw [hargs] at hhead
        simp only [List.headD_cons] at hhead
        exact countSpawn_startResult tokenize spawnB sh (asFluentCommand fa)
          p rest hargs hhead hdry
    · intro r _ hsucc
      refine ⟨?_, rfl, ?_⟩ <;> simp [directOf, toLinesOf, hsucc]

/-- Witness for C1: a concrete tagged-template handle (`$ echo
${"hello"}`) with the three plain finalizers invoked in sequence over
a collaborator producing "hello" on exit 0. -/
theorem claim_C1_witness :
    countCore
      (deferredRun jpUnit svUnit ssvUnit simpleTokenize
        (oracleExit 0 "hello" "") {}
        (.template ["echo ", ""] ["hello"])
        [.direct, .result, .toLines]).2.2 = 1
    ∧ countSpawn
      (deferredRun jpUnit svUnit ssvUnit simpleTokenize
        (oracleExit 0 "hello" "") {}
        (.template ["echo ", ""] ["hello"])
        [.direct, .result, .toLines]).2.2 = 1
    ∧ directOf ThrowMode.simple ["echo", "hello"]
        (.ok { success := true, stdout := "hello", stderr := "",
               exitCode := some 0 }) = .ok "hello"
    ∧ toLinesOf ["echo", "hello"]
        (.ok { success := true, stdout := "hello", stderr := "",
               exitCode := some 0 }) = .ok (jsLines "hello") := by
  have main := claim_C1 jpUnit svUnit ssvUnit simpleTokenize
    (oracleExit 0 "hello" "") {} (.template ["echo ", ""] ["hello"])
    [.direct, .result, .toLines] (by simp)
  refine ⟨main.2.1, main.2.2.2.1 rfl (by decide), ?_, ?_⟩
  · have hr := main.2.2.2.2
      { success := true, stdout := "hello", stderr := "", exitCode := some 0 }
      (by decide) rfl
    have := hr.1
    simpa [show argsOf simpleTokenize
      (asFluentCommand (.template ["echo ", ""] ["hello"])) =
      ["echo", "hello"] by decide] using this
  · have hr := main.2.2.2.2
      { success := true, stdout := "hello", stderr := "", exitCode := some 0 }
      (by decide) rfl
    have := hr.2.2
    simpa [show argsOf simpleTokenize
      (asFluentCommand (.template ["echo ", ""] ["hello"])) =
      ["echo", "hello"] by decide] using this

theorem containsStr_simpleErrMsg (args : List String) (ec : Int) (st : String) :
    containsStr (simpleErrMsg args (some ec) st)
      ("Exit code: " ++ toString ec) := by
  refine ⟨"Command failed: " ++ joinSpace args ++ "\n", "\n" ++ st, ?_⟩
  unfold simpleErrMsg showOptInt
  apply String.ext
  have h1 : "\nExit code: ".data = '\n' :: "Exit code: ".data := rfl
  have h2 : "\n".data = ['\n'] := rfl
  simp [String.data_append, List.append_assoc, h1, h2]

/-- C6 (counterexample): the claim states that under `raw` throw mode,
awaiting a failed deferred handle yields the collaborator's original
structured failure. With `throwMode: 'raw'` and a process exiting 7
with stderr "boom", the deferred direct-observation path in fact
throws a locally synthesized plain error, while the eager layer's raw
path on the same behaviour rethrows the structured `ExecaError` — the
two are different errors. -/
theorem claim_C6_counterexample :
    (deferredRun jpUnit svUnit ssvUnit simpleTokenize (oracleExit 7 "" "boom")
      { throwMode := .raw } (.argv ["p"]) [.direct]).2.1 =
      [.text (.error (.errMsg "Command failed with exit code 7: boom"))]
    ∧ (run simpleTokenize (oracleExit 7 "" "boom") { throwMode := .raw }
        (.argv ["p"]) {}).1 =
      .error (.execaErr { stdout := some "", stderr := some "boom",
                          exitCode := some 7 })
    ∧ JsError.errMsg "Command failed with exit code 7: boom" ≠
      JsError.execaErr { stdout := some "", stderr := some "boom",
                         exitCode := some 7 } := ⟨rfl, rfl, by decide⟩

/-- C6 (amended): for a deferred handle whose memoized execution
failed, each direct observation synthesizes a fresh error from the
same memoized outcome: under `simple` throw mode the message is the
eager layer's simple format (command text, exit code, stderr); under
`raw` throw mode — the original structured failure being unavailable
because the underlying call used `safeRun` — the locally simplified
message "Command failed with exit code N: stderr". Repeated direct
observations leave the slot untouched, re-run nothing, and produce the
identical error. -/
theorem claim_C6_amended {J V : Type} (jsonParse : String → Except String J)
    (svalidate : J → Except String V) (ssafeValidate : J → ValidationRes V)
    (tokenize : String → List String) (spawnB : SpawnOracle)
    (sh : ShellConfig) (cmd : Cmd) (r : ExecResultF)
    (hfail : r.success = false) :
    stepFin jsonParse svalidate ssafeValidate tokenize spawnB sh cmd
      (some (.ok r)) .direct =
      (some (.ok r),
       .text (.error (.errMsg
         (if sh.throwMode = .simple then
            simpleErrMsg (argsOf tokenize cmd) r.exitCode r.stderr
          else rawModeMsg r.exitCode r.stderr))),
       [])
    ∧ runSeq jsonParse svalidate ssafeValidate tokenize spawnB sh cmd
        (some (.ok r)) [.direct, .direct] =
      (some (.ok r),
       [.text (.error (.errMsg
          (if sh.throwMode = .simple then
             simpleErrMsg (argsOf tokenize cmd) r.exitCode r.stderr
           else rawModeMsg r.exitCode r.stderr))),
        .text (.error (.errMsg
          (if sh.throwMode = .simple then
             simpleErrMsg (argsOf tokenize cmd) r.exitCode r.stderr
           else rawModeMsg r.exitCode r.stderr)))],
       []) := by
  constructor
  · rw [stepFin_some]
    cases htm : sh.throwMode <;> simp [observe, directOf, hfail, htm]
  · rw [runSeq_some]
    cases htm : sh.throwMode <;> simp [observe, directOf, hfail, htm]

/-- Witness for C6 (amended): a memoized failure (exit 7, stderr
"boom") under `raw` throw mode. -/
theorem claim_C6_amended_witness :
    stepFin jpUnit svUnit ssvUnit simpleTokenize (oracleExit 7 "" "boom")
      { throwMode := .raw } (.argv ["p"])
      (some (.ok { success := false, stdout := "", stderr := "boom",
                   exitCode := some 7 })) .direct =
      (some (.ok { success := false, stdout := "", stderr := "boom",
                   exitCode := some 7 }),
       .text (.error (.errMsg "Command failed with exit code 7: boom")),
       []) := by
  have main := claim_C6_amended jpUnit svUnit ssvUnit simpleTokenize
    (oracleExit 7 "" "boom") { throwMode := .raw } (.argv ["p"])
    { success := false, stdout := "", stderr := "boom", exitCode := some 7 }
    rfl
  simpa [rawModeMsg, showOptInt] using main.1

/-- C7: for a command whose process exits with code 5, the safe
(no-throw) call resolves — without raising — to a result with
`success: false` and `exitCode: 5`, while the strict call under
`simple` throw mode raises a plain error whose message contains
"Exit code: 5". (The instance execa options are assumed not to smuggle
in a `reject` key, which would override the derived flag.) -/
theorem claim_C7 (tokenize : String → List String) (sh : ShellConfig)
    (p : String) (rest : List String) (out err : String)
    (hp : p ≠ "") (hdry : sh.dryRun = false) (htm : sh.throwMode = .simple)
    (hrej : sh.execaOptions.reject = none) :
    (safeRun tokenize (oracleExit 5 out err) sh (.argv (p :: rest)) {}).1 =
      .ok { stdout :=
              if sh.outputMode.captures then
                (if out = "" then none else some out)
              else none
            stderr :=
              if sh.outputMode.captures then
                (if err = "" then none else some err)
              else none
            exitCode := some 5
            success := false }
    ∧ ∃ m, (run tokenize (oracleExit 5 out err) sh (.argv (p :: rest)) {}).1 =
        .error (.errMsg m)
      ∧ containsStr m "Exit code: 5" := by
  constructor
  · unfold safeRun execute
    cases hcap : sh.outputMode.captures <;>
      simp [argsOf, hp, hdry, hrej, runExeca, oracleExit, normalizeStream,
        hcap, mergeShellExecaOpts]
  · refine ⟨simpleErrMsg (p :: rest)
      (some 5) ((if sh.outputMode.captures then some err else none).getD ""),
      ?_, ?_⟩
    · unfold run execute
      simp [argsOf, hp, hdry, hrej, htm, runExeca, oracleExit,
        mergeShellExecaOpts]
    · have hc := containsStr_simpleErrMsg (p :: rest) 5
        ((if sh.outputMode.captures then some err else none).getD "")
      have h5 : ("Exit code: " ++ toString (5 : Int)) = "Exit code: 5" := by
        decide
      rwa [h5] at hc

/-- Witness for C7: `sh -c "exit 5"` as an argv command on a default
shell. -/
theorem claim_C7_witness :
    (safeRun simpleTokenize (oracleExit 5 "" "") {}
      (.argv ["sh", "-c", "exit 5"]) {}).1 =
      .ok { stdout := none, stderr := none, exitCode := some 5,
            success := false }
    ∧ ∃ m, (run simpleTokenize (oracleExit 5 "" "") {}
        (.argv ["sh", "-c", "exit 5"]) {}).1 = .error (.errMsg m)
      ∧ containsStr m "Exit code: 5" := by
  have main := claim_C7 simpleTokenize {} "sh" ["-c", "exit 5"] "" ""
    (by decide) rfl rfl rfl
  exact ⟨by simpa using main.1, main.2⟩

/-- C8 (counterexample): the claim states that on a failed execution
`toLines()` raises identically to the direct-observation path. Under
`raw` throw mode, with a process exiting 3 with stderr "e", `toLines()`
throws the simple-format message while direct observation throws the
raw-mode message — two different errors on the same memoized
outcome. -/
theorem claim_C8_counterexample :
    (deferredRun jpUnit svUnit ssvUnit simpleTokenize (oracleExit 3 "" "e")
      { throwMode := .raw } (.argv ["p"]) [.toLines, .direct]).2.1 =
      [.lines (.error (.errMsg "Command failed: p\nExit code: 3\ne")),
       .text (.error (.errMsg "Command failed with exit code 3: e"))]
    ∧ JsError.errMsg "Command failed: p\nExit code: 3\ne" ≠
      JsError.errMsg "Command failed with exit code 3: e" := ⟨rfl, by decide⟩

/-- C8 (amended): for a successful memoized execution, `toLines()`
splits stdout on `\r?\n` — `"a\nb\r\nc"` yields `["a","b","c"]` and
empty stdout yields `[]`; for a failed execution `toLines()` always
raises the simple-format error (command text, exit code, stderr),
which coincides with the direct-observation error exactly when the
configured throw mode is `simple` (the default). -/
theorem claim_C8_amended (tm : ThrowMode) (args : List String)
    (r : ExecResultF) :
    (r.success = true → toLinesOf args (.ok r) = .ok (jsLines r.stdout))
    ∧ toLinesOf args
        (.ok { success := true, stdout := "a\nb\r\nc", stderr := "",
               exitCode := some 0 }) = .ok ["a", "b", "c"]
    ∧ toLinesOf args
        (.ok { success := true, stdout := "", stderr := "",
               exitCode := some 0 }) = .ok []
    ∧ (r.success = false →
        toLinesOf args (.ok r) =
          .error (.errMsg (simpleErrMsg args r.exitCode r.stderr))
        ∧ (tm = .simple →
           directOf tm args (.ok r) =
             .error (.errMsg (simpleErrMsg args r.exitCode r.stderr)))) := by
  refine ⟨fun h => by simp [toLinesOf, h], rfl, rfl, fun h => ⟨?_, fun htm => ?_⟩⟩
  · simp [toLinesOf, h]
  · simp [directOf, h, htm]

/-- Witness for C8 (amended): a failed execution (exit 2, stderr
"boom") under the default `simple` throw mode, plus the two concrete
splitting facts. -/
theorem claim_C8_amended_witness :
    toLinesOf ["p"]
      (.ok { success := true, stdout := "a\nb\r\nc", stderr := "",
             exitCode := some 0 }) = .ok ["a", "b", "c"]
    ∧ toLinesOf ["p"]
        (.ok { success := false, stdout := "", stderr := "boom",
               exitCode := some 2 }) =
      .error (.errMsg (simpleErrMsg ["p"] (some 2) "boom"))
    ∧ directOf .simple ["p"]
        (.ok { success := false, stdout := "", stderr := "boom",
               exitCode := some 2 }) =
      .error (.errMsg (simpleErrMsg ["p"] (some 2) "boom")) := by
  have main := claim_C8_amended .simple ["p"]
    { success := false, stdout := "", stderr := "boom", exitCode := some 2 }
  exact ⟨main.2.1, (main.2.2.2 rfl).1, (main.2.2.2 rfl).2 rfl⟩

/-- Lookup through an optional environment object. -/
def lookupOptEnv : Option EnvMap → String → Option String
  | some l, k => lookupKV l k
  | none, _ => none

/-- C9: effective execa options are the deep merge of instance-level
and call-level options: scalar fields are last-writer-wins with absent
call-level values not overriding, nested `env` maps are unioned
key-by-key with call-level keys winning; the documented concrete
instance merges to `{env:{A:'1',B:'2'}, timeout:9000}`; and the spawn
request `execute` hands to the collaborator carries exactly the merged
`env` and `timeout`. -/
theorem claim_C9 (tokenize : String → List String) (spawnB : SpawnOracle)
    (sh : ShellConfig) (opts : RunOpts) (cmd : Cmd)
    (p : String) (rest : List String)
    (hargs : argsOf tokenize cmd = p :: rest) (hp : p ≠ "")
    (hdry : opts.dryRun.getD sh.dryRun = false) :
    (∀ b c : ShellExecaOpts,
      ((mergeShellExecaOpts b c).timeout =
        match c.timeout with | some x => some x | none => b.timeout)
      ∧ (c.timeout = none → (mergeShellExecaOpts b c).timeout = b.timeout)
      ∧ ((mergeShellExecaOpts b c).reject =
          match c.reject with | some x => some x | none => b.reject)
      ∧ ∀ k : String,
          lookupOptEnv (mergeShellExecaOpts b c).env k =
            match lookupOptEnv c.env k with
            | some v => some v
            | none => lookupOptEnv b.env k)
    ∧ mergeShellExecaOpts
        { env := some [("A", "1")], timeout := some 5000 }
        { env := some [("B", "2")], timeout := some 9000 } =
      { env := some [("A", "1"), ("B", "2")], timeout := some 9000,
        reject := none }
    ∧ ∃ logs fo, (execute tokenize spawnB sh cmd opts).2 =
        logs ++ [Event.spawned p rest fo]
      ∧ fo.env = (mergeShellExecaOpts sh.execaOptions opts.execaOpts).env
      ∧ fo.timeout =
          (mergeShellExecaOpts sh.execaOptions opts.execaOpts).timeout := by
  refine ⟨?_, by decide, ?_⟩
  · intro b c
    refine ⟨rfl, fun h => by simp [mergeShellExecaOpts, h], rfl, fun k => ?_⟩
    cases hb : b.env with
    | none =>
      cases hc : c.env with
      | none => simp [mergeShellExecaOpts, lookupOptEnv, hb, hc]
      | some cl =>
        simp only [mergeShellExecaOpts, lookupOptEnv, hb, hc]
        cases hl : lookupKV cl k <;> simp [hl]
    | some bl =>
      cases hc : c.env with
      | none => simp [mergeShellExecaOpts, lookupOptEnv, hb, hc]
      | some cl =>
        simp only [mergeShellExecaOpts, lookupOptEnv, hb, hc]
        rw [lookupKV_mergeEnv]
  · unfold execute
    rw [hargs]
    simp only [hp, if_neg, ite_false]
    by_cases hd : opts.dryRun.getD sh.dryRun = true
    · rw [hdry] at hd; exact absurd hd (by simp)
    · simp [hd]
      exact ⟨_, _, rfl, rfl, rfl⟩

/-- Witness for C9: the documented scenario, with the merged options
observable on the spawn request. -/
theorem claim_C9_witness :
    mergeShellExecaOpts
      { env := some [("A", "1")], timeout := some 5000 }
      { env := some [("B", "2")], timeout := some 9000 } =
      { env := some [("A", "1"), ("B", "2")], timeout := some 9000,
        reject := none }
    ∧ ∃ logs fo,
        (execute simpleTokenize (oracleExit 0 "" "")
          { execaOptions := { env := some [("A", "1")], timeout := some 5000 } }
          (.argv ["p"])
          { execaOpts := { env := some [("B", "2")], timeout := some 9000 } }).2 =
          logs ++ [Event.spawned "p" [] fo]
        ∧ fo.env = (mergeShellExecaOpts
            { env := some [("A", "1")], timeout := some 5000 }
            { env := some [("B", "2")], timeout := some 9000 }).env
        ∧ fo.timeout = (mergeShellExecaOpts
            { env := some [("A", "1")], timeout := some 5000 }
            { env := some [("B", "2")], timeout := some 9000 }).timeout := by
  have main := claim_C9 simpleTokenize (oracleExit 0 "" "")
    { execaOptions := { env := some [("A", "1")], timeout := some 5000 } }
    { execaOpts := { env := some [("B", "2")], timeout := some 9000 } }
    (.argv ["p"]) "p" [] rfl (by decide) rfl
  exact ⟨main.2.1, main.2.2⟩

/-- C10: because the deep-merged execa options are spread after the
internally derived `reject` flag, a caller-supplied `reject: true` in
per-call options overrides `safeRun`'s no-throw flag: the collaborator
then rejects on the nonzero exit, the failure is caught, and `safeRun`
resolves to `{stdout:null, stderr:null, exitCode:undefined,
success:false}` — discarding the process's actual exit code even
though the process ran and its exit code was known to the
collaborator. -/
theorem claim_C10 (tokenize : String → List String) (sh : ShellConfig)
    (p : String) (rest : List String) (c : Int) (out err : String)
    (hp : p ≠ "") (hc : c ≠ 0) (hdry : sh.dryRun = false) :
    (safeRun tokenize (oracleExit c out err) sh (.argv (p :: rest))
      { execaOpts := { reject := some true } }).1 =
      .ok { stdout := none, stderr := none, exitCode := none,
            success := false }
    ∧ ∃ logs fo,
        (safeRun tokenize (oracleExit c out err) sh (.argv (p :: rest))
          { execaOpts := { reject := some true } }).2 =
          logs ++ [Event.spawned p rest fo]
        ∧ fo.reject = true := by
  unfold safeRun execute
  constructor
  · simp [argsOf, hp, hdry, runExeca, oracleExit, hc, mergeShellExecaOpts]
  · simp only [argsOf, hp, if_neg, ite_false, hdry]
    simp [hp, hdry, mergeShellExecaOpts]
    exact ⟨_, _, rfl, rfl⟩

/-- Witness for C10: `safeRun` of a process exiting 1 with a smuggled
`reject: true`. -/
theorem claim_C10_witness :
    (safeRun simpleTokenize (oracleExit 1 "o" "e") {} (.argv ["sh"])
      { execaOpts := { reject := some true } }).1 =
      .ok { stdout := none, stderr := none, exitCode := none,
            success := false } :=
  (claim_C10 simpleTokenize {} "sh" [] 1 "o" "e" (by decide) (by decide)
    rfl).1

end ThaitypeShell
